import Mathlib

/-!
Verification development for the helloReadme repository.

Part 1 embeds the client-side helpers of `src/src/web/static/js/main.js`
(the only executable source file present).  Part 2 models the RAG
ingestion/retrieval core described in the repository's design document;
that backend is documented but its implementation files are not present,
so every Part-2 definition is modelled from the spec and says so in its
doc comment.
-/

/-! ## Part 1: shallow embedding of src/src/web/static/js/main.js -/

/-- State of a form field as manipulated by `showFieldError` / `clearFieldError`
in main.js: whether the field carries the `is-invalid` class, and the text of its
`invalid-feedback` sibling element when one exists. -/
structure FieldState where
  isInvalid : Bool
  feedback : Option String
deriving DecidableEq, Repr

/-- `showFieldError(field, message)` from main.js (lines 148-156): adds the
`is-invalid` class and sets the `invalid-feedback` text. -/
def showFieldError (message : String) (_f : FieldState) : FieldState :=
  { isInvalid := true, feedback := some message }

/-- `clearFieldError(field)` from main.js (lines 161-164): removes the
`is-invalid` class and removes the `invalid-feedback` element. -/
def clearFieldError (_f : FieldState) : FieldState :=
  { isInvalid := false, feedback := none }

/-- The error message installed by `validateQuery` in main.js (line 173). -/
def queryTooShortMsg : String := "查询内容至少需要2个字符"

/-- `validateQuery(query)` from main.js (lines 169-179): when the query has fewer
than 2 characters it shows a field error on `#query` and returns false; otherwise
it clears the error and returns true.  The returned pair is (return value,
resulting state of the `#query` field). -/
def validateQuery (query : String) (f : FieldState) : Bool × FieldState :=
  if query.length < 2 then
    (false, showFieldError queryTooShortMsg f)
  else
    (true, clearFieldError f)

/-- `performSearch(query)` from main.js (lines 226-233): returns without doing
anything when the query has fewer than 2 characters; otherwise it proceeds with
the query.  `none` models the early return (no search performed); `some q`
models the search being carried out with query `q`. -/
def performSearch (query : String) : Option String :=
  if query.length < 2 then none else some query

/-- Value of JavaScript `(num / den).toFixed(1)` expressed in tenths, for a
natural-number `num`: the numerator of the multiple of one tenth nearest to
`num / den`, ties taken towards the larger value as ECMAScript `toFixed`
specifies. -/
def toFixedTenths (num den : Nat) : Nat :=
  (20 * num + den) / (2 * den)

/-- Rendering of a quantity counted in tenths with exactly one decimal digit,
as `toFixed(1)` renders it. -/
def tenthsRepr (t : Nat) : String :=
  toString (t / 10) ++ "." ++ toString (t % 10)

/-- `formatNumber(num)` from main.js (lines 298-305). -/
def formatNumber (num : Nat) : String :=
  if num ≥ 1000000 then tenthsRepr (toFixedTenths num 1000000) ++ "M"
  else if num ≥ 1000 then tenthsRepr (toFixedTenths num 1000) ++ "K"
  else toString num

/-- Specification-side meaning of "`x / den` rounded to one decimal place":
`r` tenths differs from the exact quotient by at most half of one tenth
(stated clearing denominators: `|20 x - 2 den r| ≤ den`). -/
def RoundedToTenth (x den r : Nat) : Prop :=
  r * (2 * den) ≤ 20 * x + den ∧ 20 * x ≤ r * (2 * den) + den

/-! ## Part 2: the RAG ingestion / retrieval core

The backend pipeline (Project Store, Change Detector, Vectorization Queue,
Chunker, Embedder, Vector Index, Query Expander, Retriever, Synthesizer) is
described in the repository's design document but its implementation files are
not present; every definition below is modelled from that document. -/

/-- Modelled from the spec: a point-in-time project snapshot from the external
Collector feed (§6). -/
structure Snapshot where
  platform_id : Nat
  owner : String
  name : String
  description : String
  readme_text : String
  language : String
  stars : Nat
  topics : List String
  updated_at : Nat
deriving DecidableEq, Repr

/-- Modelled from the spec: the bucketing of the star count that enters the
canonical signature (§4.1); the concrete bucket boundaries are not given, so
decimal orders of magnitude are used. -/
def starBucket (stars : Nat) : Nat :=
  if stars < 10 then 0
  else if stars < 100 then 1
  else if stars < 1000 then 2
  else if stars < 10000 then 3
  else 4

/-- Modelled from the spec: normalization of a text field before signing
(§4.1): surrounding and repeated whitespace is collapsed. -/
def normalizeText (t : String) : String :=
  String.intercalate " " (((t.split Char.isWhitespace).filter (fun w => w ≠ "")))

/-- Modelled from the spec: the canonical content signature over normalized
description, readme, topics and the bucketed star count (§4.1).  The Change
Detector implementation is absent from the sources, so the signature is
modelled as the canonical content itself, a perfect hash. -/
structure ContentSig where
  desc : String
  readme : String
  topics : List String
  starsBucket : Nat
deriving DecidableEq, Repr

/-- Modelled from the spec: computing a snapshot's canonical signature (§4.1). -/
def signatureOf (s : Snapshot) : ContentSig :=
  { desc := normalizeText s.description
    readme := normalizeText s.readme_text
    topics := s.topics
    starsBucket := starBucket s.stars }

/-- Modelled from the spec: project status (§3). -/
inductive ProjStatus
  | active
  | stale
  | deleted
deriving DecidableEq, Repr

/-- Modelled from the spec: the durable per-project record in the Project
Store (§3). -/
structure ProjectRec where
  owner : String
  name : String
  description : String
  readme_text : String
  language : String
  stars : Nat
  topics : List String
  content_hash : ContentSig
  last_seen_at : Nat
  status : ProjStatus
deriving DecidableEq, Repr

/-- Modelled from the spec: the record the Change Detector writes for a
snapshot (§3, §4.1). -/
def recOf (s : Snapshot) : ProjectRec :=
  { owner := s.owner
    name := s.name
    description := s.description
    readme_text := s.readme_text
    language := s.language
    stars := s.stars
    topics := s.topics
    content_hash := signatureOf s
    last_seen_at := s.updated_at
    status := .active }

/-- Modelled from the spec: IngestionTask states (§3). -/
inductive TaskState
  | pending
  | processing
  | done
  | failedRetryable
  | failedPermanent
deriving DecidableEq, Repr

/-- A task still occupying the per-project single-writer slot (not terminal). -/
def TaskState.inFlight : TaskState → Bool
  | .pending => true
  | .processing => true
  | .failedRetryable => true
  | .done => false
  | .failedPermanent => false

/-- Modelled from the spec: an IngestionTask owned by the Vectorization Queue
(§3). -/
structure IngestionTask where
  taskId : Nat
  projectId : Nat
  targetHash : ContentSig
  state : TaskState
  attempts : Nat
  enqueuedAt : Nat
deriving DecidableEq, Repr

/-- Modelled from the spec: a fresh task enters the queue in state pending
(§4.4 state machine: initial pending). -/
def newTask (tid pid : Nat) (sig : ContentSig) (t : Nat) : IngestionTask :=
  { taskId := tid, projectId := pid, targetHash := sig
    state := .pending, attempts := 0, enqueuedAt := t }

/-- Modelled from the spec: a vector chunk carrying its deterministic index,
embedding and the ranking metadata stored with it (§3, §4.5). -/
structure Chunk where
  chunkIdx : Nat
  text : String
  vec : List Int
  lastSeen : Nat
  language : String
  stars : Nat
deriving DecidableEq, Repr

/-- Modelled from the spec: one committed generation of a project's chunk set,
identified by the revision signature it was built from (§4.5). -/
structure Generation where
  revision : ContentSig
  chunks : List Chunk
deriving DecidableEq, Repr

/-- Modelled from the spec: the Vector Index with versioned-generation
replacement (§4.5): `committed` is what search sees; `pending` holds a new
generation while it is being written, invisible to search until commit. -/
structure VectorIndex where
  committed : List (Nat × Generation)
  pending : List (Nat × Generation)
deriving DecidableEq, Repr

/-- Association-list lookup by project id. -/
def lookupGen (l : List (Nat × Generation)) (pid : Nat) : Option Generation :=
  (l.find? (fun e => e.1 == pid)).map (fun e => e.2)

/-- Association-list upsert by project id (overwrite semantics, §4.5). -/
def upsertGen (l : List (Nat × Generation)) (pid : Nat) (g : Generation) :
    List (Nat × Generation) :=
  if l.any (fun e => e.1 == pid) then
    l.map (fun e => if e.1 == pid then (pid, g) else e)
  else
    l ++ [(pid, g)]

/-- Association-list removal by project id. -/
def removeGen (l : List (Nat × Generation)) (pid : Nat) :
    List (Nat × Generation) :=
  l.filter (fun e => e.1 != pid)

/-- Modelled from the spec: starting a generation replace (§4.5): the new
generation is written on the side; the committed (searchable) side is
untouched. -/
def beginReplace (idx : VectorIndex) (pid : Nat) (g : Generation) : VectorIndex :=
  { idx with pending := upsertGen idx.pending pid g }

/-- Modelled from the spec: atomic cutover of a finished replace (§4.5): the
pending generation becomes the committed one in a single swap. -/
def commitReplace (idx : VectorIndex) (pid : Nat) : VectorIndex :=
  match lookupGen idx.pending pid with
  | some g =>
      { committed := upsertGen idx.committed pid g
        pending := removeGen idx.pending pid }
  | none => idx

/-- Modelled from the spec: a search hit with the ranking keys of §4.5:
similarity score, `last_seen_at`, chunk index. -/
structure ScoredHit where
  pid : Nat
  chunkIdx : Nat
  sim : Int
  lastSeen : Nat
deriving DecidableEq, Repr

/-- Modelled from the spec: the §4.5 result order — higher similarity first,
ties broken by more recent `last_seen_at`, then by lower chunk index. -/
def rankRel (a b : ScoredHit) : Prop :=
  b.sim < a.sim ∨
    (a.sim = b.sim ∧
      (b.lastSeen < a.lastSeen ∨ (a.lastSeen = b.lastSeen ∧ a.chunkIdx ≤ b.chunkIdx)))

instance rankRelDecidable : DecidableRel rankRel := fun a b => by
  unfold rankRel
  exact inferInstance

instance rankRelTotal : IsTotal ScoredHit rankRel := by
  constructor
  intro a b
  unfold rankRel
  omega

instance rankRelTrans : IsTrans ScoredHit rankRel := by
  constructor
  intro a b c
  unfold rankRel
  omega

/-- Modelled from the spec: the caller's metadata filter (§4.7): language and
minimum star count. -/
structure MetaFilter where
  language : Option String
  minStars : Nat
deriving DecidableEq, Repr

/-- Modelled from the spec: whether a chunk's metadata passes the filter. -/
def metaPass (flt : MetaFilter) (c : Chunk) : Bool :=
  (match flt.language with
    | none => true
    | some L => c.language == L) && decide (flt.minStars ≤ c.stars)

/-- Scoring one committed chunk against the query vector; `sim` is the
pluggable similarity (the spec's cosine similarity, abstracted as an
integer-valued score so the model stays executable). -/
def scoreChunk (sim : List Int → List Int → Int) (qv : List Int) (pid : Nat)
    (c : Chunk) : ScoredHit :=
  { pid := pid, chunkIdx := c.chunkIdx, sim := sim qv c.vec, lastSeen := c.lastSeen }

/-- Modelled from the spec: `search(query_vector, k, metadata_filter)` (§4.5):
only committed generations are read; the filtered hits are ordered by
similarity with the §4.5 tie-breaks and the best `k` are returned. -/
def searchIndex (sim : List Int → List Int → Int) (qv : List Int) (k : Nat)
    (flt : MetaFilter) (idx : VectorIndex) : List ScoredHit :=
  let cands := idx.committed.flatMap
    (fun e => (e.2.chunks.filter (metaPass flt)).map (scoreChunk sim qv e.1))
  (List.insertionSort rankRel cands).take k

/-- An integer-valued stand-in similarity (the unnormalized cosine numerator),
used to instantiate the pluggable backend on concrete inputs. -/
def dotSim (v w : List Int) : Int :=
  ((v.zip w).map (fun p => p.1 * p.2)).sum

/-- Modelled from the spec: a ranked retrieval candidate (§4.7): one project
with its best decayed score. -/
structure RankedProj where
  pid : Nat
  score : Int
deriving DecidableEq, Repr

/-- Modelled from the spec: the §4.7 final ranking order — higher combined
score first, ties by project id for determinism. -/
def finalRel (a b : RankedProj) : Prop :=
  b.score < a.score ∨ (a.score = b.score ∧ a.pid ≤ b.pid)

instance finalRelDecidable : DecidableRel finalRel := fun a b => by
  unfold finalRel
  exact inferInstance

instance finalRelTotal : IsTotal RankedProj finalRel := by
  constructor
  intro a b
  unfold finalRel
  omega

instance finalRelTrans : IsTrans RankedProj finalRel := by
  constructor
  intro a b c
  unfold finalRel
  omega

/-- Modelled from the spec: `recencyDecay(last_seen_at)` with configurable
half-life (§4.7): the similarity is halved for every elapsed half-life. -/
def recencyDecay (halfLife now lastSeen : Nat) (s : Int) : Int :=
  s / (2 ^ ((now - lastSeen) / halfLife) : Nat)

/-- Deduplication by project id keeping the first (best-ranked) occurrence;
the fuel argument is the input length. -/
def dedupGo : Nat → List RankedProj → List RankedProj
  | 0, _ => []
  | _, [] => []
  | n + 1, h :: t => h :: dedupGo n (t.filter (fun x => x.pid != h.pid))

/-- Modelled from the spec: §4.7 deduplication by project id retaining each
project's best-scoring chunk. -/
def dedupByPid (l : List RankedProj) : List RankedProj :=
  dedupGo l.length l

/-- Modelled from the spec: the Retriever (§4.7): per-query search, merge,
decay by recency, deduplicate by project keeping the best score, rank, and
return the top results. -/
def retrieve (sim : List Int → List Int → Int) (embed : String → List Int)
    (idx : VectorIndex) (k halfLife now : Nat) (flt : MetaFilter)
    (queries : List String) : List RankedProj :=
  let hits := queries.flatMap (fun q => searchIndex sim (embed q) k flt idx)
  let scored := hits.map
    (fun h => { pid := h.pid, score := recencyDecay halfLife now h.lastSeen h.sim })
  (dedupByPid (List.insertionSort finalRel scored)).take k

/-- Modelled from the spec: the Query Expander's output (§4.6): the raw query
followed by up to `maxVar` ordered variants; on backend failure the raw query
alone. -/
def expandedQueries (expander : String → Except Unit (List String)) (maxVar : Nat)
    (q : String) : List String :=
  match expander q with
  | .ok vs => q :: vs.take maxVar
  | .error _ => [q]

/-- Modelled from the spec: the bounded context the Synthesizer builds from
the ranked candidates and the original query (§4.8). -/
def mkContext (q : String) (rs : List RankedProj) : String :=
  q ++ " " ++ String.intercalate " " ((rs.take 5).map (fun r => toString r.pid))

/-- Modelled from the spec: the final query response (§4.8): ranked results,
optional generated prose, and the soft-error flag set on synthesis failure. -/
structure QueryResponse where
  results : List RankedProj
  prose : Option String
  softError : Bool
deriving DecidableEq, Repr

/-- Modelled from the spec: `query(text, filters)` (§6, §4.6-§4.8): expansion
(best-effort), retrieval, and synthesis that degrades to the ranked list with
a soft-error flag when the generative backend fails. -/
def queryRun (expander : String → Except Unit (List String))
    (synth : String → Except Unit String) (sim : List Int → List Int → Int)
    (embed : String → List Int) (idx : VectorIndex) (k halfLife now maxVar : Nat)
    (q : String) (flt : MetaFilter) : QueryResponse :=
  let ranked := retrieve sim embed idx k halfLife now flt
    (expandedQueries expander maxVar q)
  match synth (mkContext q ranked) with
  | .ok text => { results := ranked, prose := some text, softError := false }
  | .error _ => { results := ranked, prose := none, softError := true }

/-- Modelled from the spec: the result of `ingest(snapshot)` (§4.1, §4.2, §7):
no-op, a fresh task id, deduplication against the identical in-flight target,
supersession of a stale in-flight target, or the QueueOverflowError
backpressure signal. -/
inductive IngestResult
  | noop
  | enqueued (taskId : Nat)
  | deduped (taskId : Nat)
  | superseded (taskId : Nat)
  | backpressure
deriving DecidableEq, Repr

/-- Modelled from the spec: the shared state of the ingestion core: the
Project Store, the Vectorization Queue with its configuration, the Vector
Index, and the running count of Embedder invocations. -/
structure SysState where
  store : Nat → Option ProjectRec
  queue : List IngestionTask
  nextTaskId : Nat
  index : VectorIndex
  embedCalls : Nat
  highWatermark : Nat
  maxAttempts : Nat
  chunkCap : Nat

/-- The no-op outcome of change detection (§4.1): only `last_seen_at` of the
project's record is refreshed. -/
def touchStore (st : SysState) (pid t : Nat) : SysState :=
  { st with
      store := fun p =>
        if p = pid then (st.store p).map (fun r => { r with last_seen_at := t })
        else st.store p }

/-- The Change Detector's write of a new or updated project record (§3, §4.1). -/
def putRec (st : SysState) (s : Snapshot) : SysState :=
  { st with
      store := fun p => if p = s.platform_id then some (recOf s) else st.store p }

/-- Modelled from the spec: the single in-flight task for a project, when one
exists (§3 invariant 2). -/
def inFlightFor (q : List IngestionTask) (pid : Nat) : Option IngestionTask :=
  q.find? (fun t => t.projectId == pid && t.state.inFlight)

/-- Modelled from the spec: change detection for a snapshot whose signature
differs from the stored hash (§4.1, §4.2): dedup against an identical
in-flight target, supersede a differing one by compare-and-swap, and otherwise
enqueue — unless the queue depth exceeds the high-watermark, in which case the
backpressure signal is returned and nothing changes. -/
def detectChanged (st : SysState) (s : Snapshot) : SysState × IngestResult :=
  match inFlightFor st.queue s.platform_id with
  | some t =>
      if t.targetHash = signatureOf s then
        (putRec st s, .deduped t.taskId)
      else
        ({ putRec st s with
            queue := st.queue.map
              (fun u => if u.taskId = t.taskId then { u with targetHash := signatureOf s } else u) },
          .superseded t.taskId)
  | none =>
      if st.highWatermark < st.queue.length then
        (st, .backpressure)
      else
        ({ putRec st s with
            queue := st.queue ++ [newTask st.nextTaskId s.platform_id (signatureOf s) s.updated_at]
            nextTaskId := st.nextTaskId + 1 },
          .enqueued st.nextTaskId)

/-- Modelled from the spec: `ingest(snapshot)` (§4.1, §6): compare the computed
signature to the stored `content_hash`; on a match update `last_seen_at` only,
otherwise run change detection. -/
def ingest (s : Snapshot) (st : SysState) : SysState × IngestResult :=
  match st.store s.platform_id with
  | some r =>
      if r.content_hash = signatureOf s then
        (touchStore st s.platform_id s.updated_at, .noop)
      else
        detectChanged st s
  | none => detectChanged st s

/-- Modelled from the spec: one transition of the IngestionTask state machine
(§4.2, §4.4): pending → processing; processing → done on success and
→ failed(retryable) on failure; failed(retryable) → pending while attempts
remain below the bound, → failed(permanent) once exhausted; done and
failed(permanent) are left unchanged. -/
def taskStep (embedOk : Bool) (maxA : Nat) (t : IngestionTask) : IngestionTask :=
  match t.state with
  | .pending => { t with state := .processing }
  | .processing =>
      if embedOk then { t with state := .done } else { t with state := .failedRetryable }
  | .failedRetryable =>
      if t.attempts < maxA then { t with state := .pending, attempts := t.attempts + 1 }
      else { t with state := .failedPermanent }
  | .done => t
  | .failedPermanent => t

/-- Replacing a task in the queue by task id. -/
def setTask (q : List IngestionTask) (t : IngestionTask) : List IngestionTask :=
  q.map (fun u => if u.taskId = t.taskId then t else u)

/-- Modelled from the spec: the Chunker (§4.3): the project's text fields are
split at paragraph breaks and capped in size; chunk identity is positional,
hence deterministic in (project id, revision hash, chunk index). -/
def chunkDoc (cap : Nat) (r : ProjectRec) : List String :=
  (((r.description ++ "\n\n" ++ r.readme_text).splitOn "\n\n").filter
      (fun c => c ≠ "")).map (fun c => c.take cap)

/-- Modelled from the spec: assembling the new generation of chunks for a
project revision (§3, §4.5). -/
def mkGeneration (rev : ContentSig) (r : ProjectRec) (texts : List String)
    (vecs : List (List Int)) : Generation :=
  { revision := rev
    chunks := (texts.zip vecs).enum.map
      (fun e =>
        { chunkIdx := e.1, text := e.2.1, vec := e.2.2
          lastSeen := r.last_seen_at, language := r.language, stars := r.stars }) }

/-- Modelled from the spec: executing one pending IngestionTask (§4.2-§4.5):
chunk the stored record, call the embedding backend once for the batch, and on
success commit the new generation through the versioned-generation replace —
unless the task became stale (its target no longer matches the stored
revision), in which case its result is discarded.  On failure the task retries
while attempts remain below the bound and otherwise becomes permanently
failed; the Vector Index is never touched on the failure path. -/
def runTask (embedBackend : List String → Option (List (List Int))) (tid : Nat)
    (st : SysState) : SysState :=
  match st.queue.find? (fun t => t.taskId == tid) with
  | none => st
  | some t =>
      if t.state = .pending then
        let texts := match st.store t.projectId with
          | some r => chunkDoc st.chunkCap r
          | none => []
        let tProc := taskStep true st.maxAttempts t
        match embedBackend texts with
        | some vecs =>
            let tDone := taskStep true st.maxAttempts tProc
            let idx2 := match st.store t.projectId with
              | some r =>
                  if r.content_hash = t.targetHash then
                    commitReplace
                      (beginReplace st.index t.projectId
                        (mkGeneration t.targetHash r texts vecs))
                      t.projectId
                  else st.index
              | none => st.index
            { st with
                queue := setTask st.queue tDone
                index := idx2
                embedCalls := st.embedCalls + 1 }
        | none =>
            let tNext := taskStep false st.maxAttempts (taskStep false st.maxAttempts tProc)
            { st with
                queue := setTask st.queue tNext
                embedCalls := st.embedCalls + 1 }
      else st

/-- Modelled from the spec: the allowed IngestionTask transitions (§3
invariant 4 and the §4.4 state machine). -/
inductive TaskTrans : TaskState → TaskState → Prop
  | start : TaskTrans .pending .processing
  | complete : TaskTrans .processing .done
  | failTransient : TaskTrans .processing .failedRetryable
  | requeue : TaskTrans .failedRetryable .pending
  | giveUp : TaskTrans .failedRetryable .failedPermanent

/-- A concrete snapshot used to evaluate the model on closed inputs. -/
def exSnap : Snapshot :=
  { platform_id := 1, owner := "o", name := "n", description := "d"
    readme_text := "r", language := "go", stars := 5, topics := ["t"]
    updated_at := 7 }

/-- A concrete project store holding the record of `exSnap`. -/
def exStore : Nat → Option ProjectRec :=
  fun p => if p = 1 then some (recOf exSnap) else none

/-- A concrete system state whose store already matches `exSnap`. -/
def exState : SysState :=
  { store := exStore, queue := [], nextTaskId := 0, index := ⟨[], []⟩
    embedCalls := 0, highWatermark := 10, maxAttempts := 3, chunkCap := 100 }

/-- A concrete signature value. -/
def exSig : ContentSig := { desc := "d", readme := "r", topics := [], starsBucket := 0 }

/-- A concrete terminal task. -/
def exTaskDone : IngestionTask :=
  { taskId := 1, projectId := 2, targetHash := exSig, state := .done
    attempts := 0, enqueuedAt := 0 }

/-- A concrete state whose queue is over the (zero) high-watermark with an
in-flight task for an unrelated project. -/
def exBusyState : SysState :=
  { store := fun _ => none, queue := [newTask 0 2 exSig 0], nextTaskId := 1
    index := ⟨[], []⟩, embedCalls := 0, highWatermark := 0, maxAttempts := 3
    chunkCap := 100 }

/-- A concrete committed generation. -/
def exGen : Generation :=
  { revision := exSig
    chunks := [{ chunkIdx := 0, text := "d", vec := [1], lastSeen := 7
                 language := "go", stars := 5 }] }

/-- A concrete replacement generation. -/
def exGen2 : Generation :=
  { revision := { desc := "d2", readme := "r2", topics := [], starsBucket := 0 }
    chunks := [{ chunkIdx := 0, text := "d2", vec := [2], lastSeen := 9
                 language := "go", stars := 5 }] }

/-- A concrete index with one committed generation for project 1. -/
def exIdx : VectorIndex := { committed := [(1, exGen)], pending := [] }

/-- A concrete pending task whose attempts already reached the bound. -/
def exFailTask : IngestionTask :=
  { taskId := 0, projectId := 1, targetHash := exSig, state := .pending
    attempts := 3, enqueuedAt := 0 }

/-- A concrete state holding `exFailTask` and a committed generation. -/
def exFailState : SysState :=
  { store := exStore, queue := [exFailTask], nextTaskId := 1, index := exIdx
    embedCalls := 0, highWatermark := 10, maxAttempts := 3, chunkCap := 100 }

/-- A query-expansion backend that always fails. -/
def failExpand : String → Except Unit (List String) := fun _ => .error ()

/-- A generative backend that always fails. -/
def failSynth : String → Except Unit String := fun _ => .error ()


/-! ## Theorems -/

theorem toFixedTenths_rounds (x den : Nat) (hden : 0 < den) :
    RoundedToTenth x den (toFixedTenths x den) := by
  have hk : 0 < 2 * den := by omega
  have hdm := Nat.div_add_mod (20 * x + den) (2 * den)
  have hlt := Nat.mod_lt (20 * x + den) hk
  unfold RoundedToTenth toFixedTenths
  set r := (20 * x + den) / (2 * den) with hr
  set q := (20 * x + den) % (2 * den) with hq
  constructor <;> nlinarith [hdm, hlt]

/-- C9: formatNumber partitions its numeric input by the raw value, not by the
rounded output: for num ≥ 1,000,000 it returns num/1,000,000 rounded to one
decimal with suffix "M"; for 1,000 ≤ num < 1,000,000 it returns num/1,000
rounded to one decimal with suffix "K" (so formatNumber 999999 is "1000.0K",
not "1.0M"); for num < 1,000 it returns the decimal string of num. -/
theorem formatNumber_partitions (num : Nat) :
    (1000000 ≤ num →
      formatNumber num = tenthsRepr (toFixedTenths num 1000000) ++ "M" ∧
      RoundedToTenth num 1000000 (toFixedTenths num 1000000)) ∧
    (1000 ≤ num → num < 1000000 →
      formatNumber num = tenthsRepr (toFixedTenths num 1000) ++ "K" ∧
      RoundedToTenth num 1000 (toFixedTenths num 1000)) ∧
    (num < 1000 → formatNumber num = toString num) ∧
    formatNumber 999999 = "1000.0K" ∧ formatNumber 999999 ≠ "1.0M" := by
  refine ⟨?_, ?_, ?_, by decide, by decide⟩
  · intro h
    refine ⟨?_, toFixedTenths_rounds num 1000000 (by norm_num)⟩
    simp [formatNumber, h]
  · intro h1 h2
    refine ⟨?_, toFixedTenths_rounds num 1000 (by norm_num)⟩
    have hno : ¬ num ≥ 1000000 := by omega
    simp [formatNumber, hno, h1]
  · intro h
    have h1 : ¬ num ≥ 1000000 := by omega
    have h2 : ¬ num ≥ 1000 := by omega
    simp [formatNumber, h1, h2]

theorem formatNumber_partitions_witness :
    (1000000 ≤ 1500000 ∧
      formatNumber 1500000 = tenthsRepr (toFixedTenths 1500000 1000000) ++ "M") ∧
    formatNumber 999999 = "1000.0K" :=
  ⟨⟨by decide, ((formatNumber_partitions 1500000).1 (by decide)).1⟩,
    (formatNumber_partitions 999999).2.2.2.1⟩

/-- C10: the query input is treated as valid iff it has at least 2 characters:
validateQuery returns false and marks the query field with an error when the
length is below 2, returns true and clears the error otherwise, and
performSearch performs no search when the length is below 2. -/
theorem validateQuery_length_threshold (q : String) (f : FieldState) :
    (q.length < 2 →
      validateQuery q f = (false, showFieldError queryTooShortMsg f) ∧
      (validateQuery q f).2.isInvalid = true ∧
      performSearch q = none) ∧
    (2 ≤ q.length →
      validateQuery q f = (true, clearFieldError f) ∧
      (validateQuery q f).2.isInvalid = false ∧
      (validateQuery q f).2.feedback = none ∧
      performSearch q = some q) := by
  constructor
  · intro h
    simp [validateQuery, performSearch, h, showFieldError]
  · intro h
    have h2 : ¬ q.length < 2 := by omega
    simp [validateQuery, performSearch, h2, clearFieldError]

theorem validateQuery_length_threshold_witness :
    "a".length < 2 ∧
    (validateQuery "a" ⟨false, none⟩ =
        (false, showFieldError queryTooShortMsg ⟨false, none⟩) ∧
      (validateQuery "a" ⟨false, none⟩).2.isInvalid = true ∧
      performSearch "a" = none) :=
  ⟨by decide, (validateQuery_length_threshold "a" ⟨false, none⟩).1 (by decide)⟩

lemma lookupGen_upsertGen (l : List (Nat × Generation)) (pid : Nat) (g : Generation) :
    lookupGen (upsertGen l pid g) pid = some g := by
  induction l with
  | nil => simp [upsertGen, lookupGen]
  | cons e t ih =>
      by_cases he : e.1 = pid
      · simp [upsertGen, lookupGen, he]
      · have heb : (e.1 == pid) = false := by simp [he]
        have hstep : upsertGen (e :: t) pid g = e :: upsertGen t pid g := by
          by_cases hany : t.any (fun x => x.1 == pid)
          · simp [upsertGen, heb, hany, he]
          · simp [upsertGen, heb, hany, he]
        rw [hstep]
        simp only [lookupGen] at ih ⊢
        rw [List.find?_cons_of_neg _ (by simp [heb])]
        exact ih

/-- C3: during a replace of a project's chunk set, a search never observes the
project as absent: writing the new generation leaves the committed side — and
hence every search result — unchanged, a previously committed generation stays
visible throughout, and only the final commit swaps the new generation in
(no delete-then-upsert gap). -/
theorem replace_never_absent (idx : VectorIndex) (pid : Nat) (gnew : Generation) :
    ((beginReplace idx pid gnew).committed = idx.committed) ∧
    (∀ (sim : List Int → List Int → Int) (qv : List Int) (k : Nat) (flt : MetaFilter),
      searchIndex sim qv k flt (beginReplace idx pid gnew) = searchIndex sim qv k flt idx) ∧
    (∀ g0, lookupGen idx.committed pid = some g0 →
      lookupGen (beginReplace idx pid gnew).committed pid = some g0) ∧
    lookupGen (commitReplace (beginReplace idx pid gnew) pid).committed pid = some gnew := by
  refine ⟨rfl, fun sim qv k flt => rfl, fun g0 h => h, ?_⟩
  unfold commitReplace beginReplace
  simp only [lookupGen_upsertGen]

theorem replace_never_absent_witness :
    lookupGen exIdx.committed 1 = some exGen ∧
    lookupGen (beginReplace exIdx 1 exGen2).committed 1 = some exGen :=
  ⟨rfl, (replace_never_absent exIdx 1 exGen2).2.2.1 exGen rfl⟩

/-- C8: retrieval is deterministic: for a fixed index state and fixed query,
repeated invocations of search return the identical list, and that list is
ordered by similarity with ties broken first by more recent `last_seen_at`
and then by lower chunk index. -/
theorem search_ranking_deterministic (sim : List Int → List Int → Int)
    (qv : List Int) (k : Nat) (flt : MetaFilter) (idx : VectorIndex) :
    searchIndex sim qv k flt idx = searchIndex sim qv k flt idx ∧
    List.Sorted rankRel (searchIndex sim qv k flt idx) ∧
    (∀ a b : ScoredHit, rankRel a b ↔
      (b.sim < a.sim ∨
        (a.sim = b.sim ∧
          (b.lastSeen < a.lastSeen ∨
            (a.lastSeen = b.lastSeen ∧ a.chunkIdx ≤ b.chunkIdx))))) := by
  refine ⟨rfl, ?_, fun a b => Iff.rfl⟩
  unfold searchIndex
  exact List.Pairwise.sublist (List.take_sublist k _)
    (List.sorted_insertionSort rankRel _)

lemma dedupGo_sublist : ∀ (n : Nat) (l : List RankedProj), List.Sublist (dedupGo n l) l := by
  intro n
  induction n with
  | zero =>
      intro l
      simp only [dedupGo]
      exact List.nil_sublist l
  | succ n ih =>
      intro l
      cases l with
      | nil => simp [dedupGo]
      | cons h t =>
          simp only [dedupGo]
          exact List.Sublist.cons₂ h ((ih _).trans (List.filter_sublist t))

lemma retrieve_sorted (sim : List Int → List Int → Int) (embed : String → List Int)
    (idx : VectorIndex) (k hl now : Nat) (flt : MetaFilter) (qs : List String) :
    List.Sorted finalRel (retrieve sim embed idx k hl now flt qs) := by
  simp only [retrieve, dedupByPid]
  exact List.Pairwise.sublist
    ((List.take_sublist _ _).trans (dedupGo_sublist _ _))
    (List.sorted_insertionSort finalRel _)

/-- C5: the query path never surfaces a hard failure: whatever the backends
do it returns a ranked (sorted) result list; when the expansion backend fails
retrieval falls back to the raw query alone, and when the generative backend
fails the response is the ranked candidates with no prose and the soft-error
flag set. -/
theorem query_degrades (expander : String → Except Unit (List String))
    (synth : String → Except Unit String) (sim : List Int → List Int → Int)
    (embed : String → List Int) (idx : VectorIndex) (k hl now maxVar : Nat)
    (q : String) (flt : MetaFilter)
    (he : expander q = .error ())
    (hs : ∀ c, synth c = .error ()) :
    (∀ synth2 : String → Except Unit String,
      (queryRun expander synth2 sim embed idx k hl now maxVar q flt).results =
        retrieve sim embed idx k hl now flt [q]) ∧
    (∀ expander2 : String → Except Unit (List String),
      (queryRun expander2 synth sim embed idx k hl now maxVar q flt).prose = none ∧
      (queryRun expander2 synth sim embed idx k hl now maxVar q flt).softError = true) ∧
    (∀ (expander2 : String → Except Unit (List String))
        (synth2 : String → Except Unit String),
      List.Sorted finalRel
        (queryRun expander2 synth2 sim embed idx k hl now maxVar q flt).results) := by
  refine ⟨?_, ?_, ?_⟩
  · intro synth2
    unfold queryRun
    simp only [expandedQueries, he]
    cases h : synth2 (mkContext q (retrieve sim embed idx k hl now flt [q])) <;>
      simp [h]
  · intro expander2
    unfold queryRun
    simp [hs]
  · intro e2 s2
    unfold queryRun
    cases h : s2 (mkContext q
        (retrieve sim embed idx k hl now flt (expandedQueries e2 maxVar q))) <;>
      simp [h, retrieve_sorted]

theorem query_degrades_witness :
    (queryRun failExpand failSynth dotSim (fun _ => [1]) exIdx 5 1 0 3 "q"
        ⟨none, 0⟩).prose = none ∧
    (queryRun failExpand failSynth dotSim (fun _ => [1]) exIdx 5 1 0 3 "q"
        ⟨none, 0⟩).softError = true :=
  (query_degrades failExpand failSynth dotSim (fun _ => [1]) exIdx 5 1 0 3 "q"
      ⟨none, 0⟩ rfl (fun _ => rfl)).2.1 failExpand

lemma touchStore_eq_self (st : SysState) (pid u : Nat)
    (h : ∀ r, st.store pid = some r → r.last_seen_at = u) :
    touchStore st pid u = st := by
  have hf : (fun p =>
      if p = pid then (st.store p).map (fun r => { r with last_seen_at := u })
      else st.store p) = st.store := by
    funext p
    by_cases hp : p = pid
    · subst hp
      rw [if_pos rfl]
      cases hs : st.store p with
      | none => rfl
      | some r =>
          have hu := h r hs
          cases r
          simp_all
    · rw [if_neg hp]
  unfold touchStore
  rw [hf]

lemma ingest_noop (s : Snapshot) (st : SysState) (r : ProjectRec)
    (hr : st.store s.platform_id = some r) (hh : r.content_hash = signatureOf s) :
    ingest s st = (touchStore st s.platform_id s.updated_at, .noop) := by
  unfold ingest
  rw [hr]
  simp [hh]

lemma ingest_stable (s : Snapshot) (st : SysState) (r : ProjectRec)
    (hr : st.store s.platform_id = some r) (hh : r.content_hash = signatureOf s)
    (hl : r.last_seen_at = s.updated_at) :
    ingest s st = (st, .noop) := by
  rw [ingest_noop s st r hr hh, touchStore_eq_self]
  intro r2 hr2
  rw [hr] at hr2
  injection hr2 with h2
  rw [← h2]
  exact hl

/-- C1: if an incoming snapshot's computed signature equals the stored
`content_hash`, processing it is a no-op apart from refreshing
`last_seen_at`: the queue, index and Embedder call count are untouched, so
zero Embedder calls result. -/
theorem ingest_skip_unchanged (s : Snapshot) (st : SysState) (r : ProjectRec)
    (hr : st.store s.platform_id = some r)
    (hh : r.content_hash = signatureOf s) :
    (ingest s st).2 = IngestResult.noop ∧
    (ingest s st).1.queue = st.queue ∧
    (ingest s st).1.index = st.index ∧
    (ingest s st).1.embedCalls = st.embedCalls ∧
    (ingest s st).1.store s.platform_id =
      some { r with last_seen_at := s.updated_at } ∧
    (∀ p, p ≠ s.platform_id → (ingest s st).1.store p = st.store p) := by
  rw [ingest_noop s st r hr hh]
  refine ⟨rfl, rfl, rfl, rfl, ?_, ?_⟩
  · simp [touchStore, hr]
  · intro p hp
    simp [touchStore, hp]

theorem ingest_skip_unchanged_witness :
    exState.store exSnap.platform_id = some (recOf exSnap) ∧
    (ingest exSnap exState).2 = IngestResult.noop ∧
    (ingest exSnap exState).1.queue = exState.queue ∧
    (ingest exSnap exState).1.embedCalls = exState.embedCalls := by
  have h := ingest_skip_unchanged exSnap exState (recOf exSnap)
    (by simp [exState, exStore, exSnap]) rfl
  exact ⟨by simp [exState, exStore, exSnap], h.1, h.2.1, h.2.2.2.1⟩

/-- C2: ingestion is idempotent: replaying the identical snapshot leaves the
whole state — Project Store, queue and Vector Index — exactly as after the
first run, and the replay never creates a task. -/
theorem ingest_idempotent (s : Snapshot) (st : SysState) :
    (ingest s (ingest s st).1).1 = (ingest s st).1 ∧
    ∀ tid, (ingest s (ingest s st).1).2 ≠ IngestResult.enqueued tid := by
  have dmain : (∃ r, (detectChanged st s).1.store s.platform_id = some r ∧
      r.content_hash = signatureOf s ∧ r.last_seen_at = s.updated_at) ∨
      detectChanged st s = (st, IngestResult.backpressure) := by
    unfold detectChanged
    cases hif : inFlightFor st.queue s.platform_id with
    | some t =>
        by_cases htg : t.targetHash = signatureOf s
        · left
          exact ⟨recOf s, by simp [htg, putRec], rfl, rfl⟩
        · left
          exact ⟨recOf s, by simp [htg, putRec], rfl, rfl⟩
    | none =>
        by_cases hov : st.highWatermark < st.queue.length
        · right
          simp [hov]
        · left
          exact ⟨recOf s, by simp [hov, putRec], rfl, rfl⟩
  have main : (∃ r, (ingest s st).1.store s.platform_id = some r ∧
      r.content_hash = signatureOf s ∧ r.last_seen_at = s.updated_at) ∨
      ingest s st = (st, IngestResult.backpressure) := by
    cases hst : st.store s.platform_id with
    | some r0 =>
        by_cases hh : r0.content_hash = signatureOf s
        · rw [ingest_noop s st r0 hst hh]
          left
          exact ⟨{ r0 with last_seen_at := s.updated_at },
            by simp [touchStore, hst], hh, rfl⟩
        · have hee : ingest s st = detectChanged st s := by
            unfold ingest
            rw [hst]
            simp [hh]
          rw [hee]
          exact dmain
    | none =>
        have hee : ingest s st = detectChanged st s := by
          unfold ingest
          rw [hst]
        rw [hee]
        exact dmain
  rcases main with ⟨r, hr, hh, hl⟩ | hbp
  · rw [ingest_stable s _ r hr hh hl]
    exact ⟨rfl, by simp⟩
  · simp [hbp]

lemma ingest_changed_eq (s : Snapshot) (st : SysState)
    (hch : ∀ r, st.store s.platform_id = some r → r.content_hash ≠ signatureOf s) :
    ingest s st = detectChanged st s := by
  cases hst : st.store s.platform_id with
  | some r0 =>
      unfold ingest
      rw [hst]
      simp [hch r0 hst]
  | none =>
      unfold ingest
      rw [hst]

/-- C6: once the queue depth exceeds the high-watermark, an ingest call that
needs to enqueue returns the backpressure signal and changes nothing; and no
submitted change is ever silently dropped — whenever ingest does not signal
backpressure, a task targeting the snapshot's signature is present in the
resulting queue. -/
theorem enqueue_backpressure (s : Snapshot) (st : SysState)
    (hchanged : ∀ r, st.store s.platform_id = some r →
      r.content_hash ≠ signatureOf s)
    (hnoflight : inFlightFor st.queue s.platform_id = none)
    (hdepth : st.highWatermark < st.queue.length) :
    ingest s st = (st, IngestResult.backpressure) ∧
    (∀ (s2 : Snapshot) (st2 : SysState),
      (ingest s2 st2).2 ≠ IngestResult.backpressure →
      (∀ r, st2.store s2.platform_id = some r →
        r.content_hash ≠ signatureOf s2) →
      ∃ u ∈ (ingest s2 st2).1.queue,
        u.projectId = s2.platform_id ∧ u.targetHash = signatureOf s2) := by
  constructor
  · rw [ingest_changed_eq s st hchanged]
    unfold detectChanged
    rw [hnoflight]
    simp [hdepth]
  · intro s2 st2 hbp hch2
    rw [ingest_changed_eq s2 st2 hch2] at hbp ⊢
    unfold detectChanged at hbp ⊢
    cases hif : inFlightFor st2.queue s2.platform_id with
    | some t =>
        have hmem := List.mem_of_find?_eq_some hif
        have hpred := List.find?_some hif
        have hpid : t.projectId = s2.platform_id := by
          simp [Bool.and_eq_true] at hpred
          exact hpred.1
        by_cases htg : t.targetHash = signatureOf s2
        · refine ⟨t, ?_, hpid, htg⟩
          simp [htg, putRec]
          exact hmem
        · refine ⟨{ t with targetHash := signatureOf s2 }, ?_, hpid, rfl⟩
          simp only [htg, if_false]
          have := List.mem_map_of_mem
            (fun u => if u.taskId = t.taskId then
              { u with targetHash := signatureOf s2 } else u) hmem
          simp only [if_pos rfl] at this
          simpa using this
    | none =>
        by_cases hov : st2.highWatermark < st2.queue.length
        · rw [hif] at hbp
          simp [hov] at hbp
        · refine ⟨newTask st2.nextTaskId s2.platform_id (signatureOf s2) s2.updated_at,
            ?_, rfl, rfl⟩
          simp [hov]

theorem enqueue_backpressure_witness :
    ingest exSnap exBusyState = (exBusyState, IngestResult.backpressure) :=
  (enqueue_backpressure exSnap exBusyState
    (fun r hr => by simp [exBusyState] at hr) rfl (by decide)).1

lemma detect_queue_states (s : Snapshot) (st : SysState) (u : IngestionTask)
    (hu : u ∈ (detectChanged st s).1.queue) :
    (∃ v ∈ st.queue, v.state = u.state) ∨ u.state = TaskState.pending := by
  unfold detectChanged at hu
  revert hu
  cases hif : inFlightFor st.queue s.platform_id with
  | some t =>
      intro hu
      by_cases htg : t.targetHash = signatureOf s
      · simp only [htg, if_true] at hu
        exact Or.inl ⟨u, by simpa [putRec] using hu, rfl⟩
      · simp only [htg, if_false] at hu
        have hu2 : u ∈ st.queue.map
            (fun v => if v.taskId = t.taskId then
              { v with targetHash := signatureOf s } else v) := by
          simpa [putRec] using hu
        rcases List.mem_map.mp hu2 with ⟨v, hv, hveq⟩
        refine Or.inl ⟨v, hv, ?_⟩
        rw [← hveq]
        by_cases hv2 : v.taskId = t.taskId <;> simp [hv2]
  | none =>
      intro hu
      by_cases hov : st.highWatermark < st.queue.length
      · simp only [hov, if_true] at hu
        exact Or.inl ⟨u, hu, rfl⟩
      · simp only [hov, if_false] at hu
        have hu2 : u ∈ st.queue ++
            [newTask st.nextTaskId s.platform_id (signatureOf s) s.updated_at] := by
          simpa [putRec] using hu
        rcases List.mem_append.mp hu2 with h | h
        · exact Or.inl ⟨u, h, rfl⟩
        · right
          rcases List.mem_singleton.mp h with rfl
          rfl

lemma ingest_queue_states (s : Snapshot) (st : SysState) (u : IngestionTask)
    (hu : u ∈ (ingest s st).1.queue) :
    (∃ v ∈ st.queue, v.state = u.state) ∨ u.state = TaskState.pending := by
  by_cases hch : ∀ r, st.store s.platform_id = some r →
      r.content_hash ≠ signatureOf s
  · rw [ingest_changed_eq s st hch] at hu
    exact detect_queue_states s st u hu
  · push_neg at hch
    rcases hch with ⟨r, hr, hh⟩
    rw [ingest_noop s st r hr hh] at hu
    exact Or.inl ⟨u, hu, rfl⟩

/-- C4: every IngestionTask enters the system pending; every state change the
task-processing step makes is one of the allowed transitions
pending → processing, processing → done, processing → failed(retryable),
failed(retryable) → pending (only while the attempt bound is not reached) or
failed(retryable) → failed(permanent); done and failed(permanent) are terminal
and the allowed-transition relation leaves them nowhere to go. -/
theorem task_state_machine :
    (∀ (tid pid : Nat) (sig : ContentSig) (t : Nat),
      (newTask tid pid sig t).state = TaskState.pending) ∧
    (∀ (s : Snapshot) (st : SysState) (u : IngestionTask),
      u ∈ (ingest s st).1.queue →
      (∃ v ∈ st.queue, v.state = u.state) ∨ u.state = TaskState.pending) ∧
    (∀ (ok : Bool) (m : Nat) (t : IngestionTask),
      (taskStep ok m t).state = t.state ∨
        TaskTrans t.state (taskStep ok m t).state) ∧
    (∀ (ok : Bool) (m : Nat) (t : IngestionTask),
      t.state = TaskState.done ∨ t.state = TaskState.failedPermanent →
      taskStep ok m t = t) ∧
    (∀ s, ¬ TaskTrans TaskState.done s) ∧
    (∀ s, ¬ TaskTrans TaskState.failedPermanent s) ∧
    (∀ (ok : Bool) (m : Nat) (t : IngestionTask),
      t.state = TaskState.failedRetryable →
      (taskStep ok m t).state = TaskState.pending →
      t.attempts < m) := by
  refine ⟨fun tid pid sig t => rfl, ingest_queue_states, ?_, ?_, ?_, ?_, ?_⟩
  · intro ok m t
    cases ht : t.state with
    | pending =>
        right
        simp [taskStep, ht]
        exact TaskTrans.start
    | processing =>
        right
        cases ok
        · simp [taskStep, ht]
          exact TaskTrans.failTransient
        · simp [taskStep, ht]
          exact TaskTrans.complete
    | failedRetryable =>
        right
        by_cases hatt : t.attempts < m
        · simp [taskStep, ht, hatt]
          exact TaskTrans.requeue
        · simp [taskStep, ht, hatt]
          exact TaskTrans.giveUp
    | done =>
        left
        simp [taskStep, ht]
    | failedPermanent =>
        left
        simp [taskStep, ht]
  · intro ok m t h
    rcases h with h | h <;> simp [taskStep, h]
  · exact fun s h => nomatch h
  · exact fun s h => nomatch h
  · intro ok m t ht hstep
    by_cases hatt : t.attempts < m
    · exact hatt
    · simp [taskStep, ht, hatt] at hstep

theorem task_state_machine_witness :
    (exTaskDone.state = TaskState.done ∨
      exTaskDone.state = TaskState.failedPermanent) ∧
    taskStep true 3 exTaskDone = exTaskDone :=
  ⟨Or.inl rfl, task_state_machine.2.2.2.1 true 3 exTaskDone (Or.inl rfl)⟩

lemma taskStep_taskId (ok : Bool) (m : Nat) (t : IngestionTask) :
    (taskStep ok m t).taskId = t.taskId := by
  unfold taskStep
  split <;> first
    | rfl
    | (split <;> rfl)

/-- C7: a permanently failing embedding attempt only moves the owning task's
state: the Vector Index (hence every search result) and the Project Store are
untouched, every other task survives unchanged, and a pending task whose
attempts already reached the bound ends failed(permanent). -/
theorem failed_embed_preserves_index
    (embedBackend : List String → Option (List (List Int))) (tid : Nat)
    (st : SysState) (hfail : ∀ ts, embedBackend ts = none) :
    (runTask embedBackend tid st).index = st.index ∧
    (runTask embedBackend tid st).store = st.store ∧
    (∀ (sim : List Int → List Int → Int) (qv : List Int) (k : Nat)
        (flt : MetaFilter),
      searchIndex sim qv k flt (runTask embedBackend tid st).index =
        searchIndex sim qv k flt st.index) ∧
    (∀ u ∈ st.queue, u.taskId ≠ tid → u ∈ (runTask embedBackend tid st).queue) ∧
    (∀ t, st.queue.find? (fun x => x.taskId == tid) = some t →
      t.state = TaskState.pending → st.maxAttempts ≤ t.attempts →
      (runTask embedBackend tid st).queue =
        setTask st.queue { t with state := TaskState.failedPermanent }) := by
  cases hf : st.queue.find? (fun x => x.taskId == tid) with
  | none =>
      have hrun : runTask embedBackend tid st = st := by
        unfold runTask
        rw [hf]
      rw [hrun]
      refine ⟨rfl, rfl, fun sim qv k flt => rfl, fun u hu hne => hu, ?_⟩
      intro t hft
      exact nomatch hft
  | some t =>
      have htid : t.taskId = tid := by
        have := List.find?_some hf
        simpa using this
      by_cases hp : t.state = TaskState.pending
      · have hrun : runTask embedBackend tid st =
            { st with
                queue := setTask st.queue
                  (taskStep false st.maxAttempts
                    (taskStep false st.maxAttempts
                      (taskStep true st.maxAttempts t)))
                embedCalls := st.embedCalls + 1 } := by
          unfold runTask
          rw [hf]
          simp [hp, hfail]
        rw [hrun]
        refine ⟨rfl, rfl, fun sim qv k flt => rfl, ?_, ?_⟩
        · intro u hu hne
          unfold setTask
          have hid : (taskStep false st.maxAttempts
              (taskStep false st.maxAttempts
                (taskStep true st.maxAttempts t))).taskId = tid := by
            rw [taskStep_taskId, taskStep_taskId, taskStep_taskId]
            exact htid
          have hfix : (fun v => if v.taskId =
              (taskStep false st.maxAttempts
                (taskStep false st.maxAttempts
                  (taskStep true st.maxAttempts t))).taskId then
                (taskStep false st.maxAttempts
                  (taskStep false st.maxAttempts
                    (taskStep true st.maxAttempts t)))
              else v) u = u := by
            rw [hid]
            exact if_neg hne
          rw [← hfix]
          exact List.mem_map_of_mem _ hu
        · intro t2 hft hpend hatt
          injection hft with h2
          subst h2
          have hcollapse : taskStep false st.maxAttempts
              (taskStep false st.maxAttempts
                (taskStep true st.maxAttempts t)) =
              { t with state := TaskState.failedPermanent } := by
            have h1 : taskStep true st.maxAttempts t =
                { t with state := TaskState.processing } := by
              simp [taskStep, hpend]
            rw [h1]
            have h2s : taskStep false st.maxAttempts
                { t with state := TaskState.processing } =
                { t with state := TaskState.failedRetryable } := rfl
            rw [h2s]
            have hnat : ¬ t.attempts < st.maxAttempts := by omega
            simp [taskStep, hnat]
          rw [hcollapse]
      · have hrun : runTask embedBackend tid st = st := by
          unfold runTask
          rw [hf]
          simp [hp]
        rw [hrun]
        refine ⟨rfl, rfl, fun sim qv k flt => rfl, fun u hu hne => hu, ?_⟩
        intro t2 hft hpend
        injection hft with h2
        subst h2
        exact absurd hpend hp

theorem failed_embed_preserves_index_witness :
    (runTask (fun _ => none) 0 exFailState).index = exFailState.index ∧
    (runTask (fun _ => none) 0 exFailState).store = exFailState.store := by
  have h := failed_embed_preserves_index (fun _ => none) 0 exFailState
    (fun ts => rfl)
  exact ⟨h.1, h.2.1⟩

theorem ingest_idempotent_witness :
    (ingest exSnap (ingest exSnap exState).1).1 = (ingest exSnap exState).1 :=
  (ingest_idempotent exSnap exState).1
